import Mathlib

/-!
Shallow embedding of the tabular parsing and series-inference engine of the
LineChartAssistant application (function `parseRawInputToData` and its caller
`handleParse` in the main application file, together with the data model of
`types.ts`).

Strings are modelled as `List Char`.  JavaScript numbers produced by
`parseFloat` are modelled exactly: a finite result is kept as an exact
rational (the engine never observes double rounding in any property proved
here — only NaN-ness and the literal value 0 matter), infinities are kept
symbolically, and NaN is `Option.none`.
-/

namespace LineChart

/-- The set of characters the JavaScript `String.prototype.trim` and the
`parseFloat` whitespace skipper treat as whitespace (ECMAScript WhiteSpace
and LineTerminator code points). -/
def jsIsWhitespace (c : Char) : Bool :=
  c.toNat = 9 || c.toNat = 10 || c.toNat = 11 || c.toNat = 12 || c.toNat = 13 ||
  c.toNat = 32 || c.toNat = 160 || c.toNat = 0x1680 ||
  (0x2000 ≤ c.toNat && c.toNat ≤ 0x200A) ||
  c.toNat = 0x2028 || c.toNat = 0x2029 || c.toNat = 0x202F ||
  c.toNat = 0x205F || c.toNat = 0x3000 || c.toNat = 0xFEFF

/-- JavaScript `s.trim()`: drop leading and trailing whitespace. -/
def jsTrim (l : List Char) : List Char :=
  ((l.dropWhile jsIsWhitespace).reverse.dropWhile jsIsWhitespace).reverse

/-- JavaScript `input.split(/\r?\n/)`: split at every LF, where a CR
immediately preceding the LF is consumed together with it.  A lone CR does
not split.  The accumulator holds the current segment reversed. -/
def splitLinesAux : List Char → List Char → List (List Char)
  | [], acc => [acc.reverse]
  | '\n' :: rest, acc =>
      (match acc with
       | '\r' :: acc2 => acc2.reverse
       | _ => acc.reverse) :: splitLinesAux rest []
  | c :: rest, acc => splitLinesAux rest (c :: acc)

def splitLines (l : List Char) : List (List Char) :=
  splitLinesAux l []

/-- JavaScript `line.split(d)` for a one-character separator `d`:
always returns at least one (possibly empty) segment. -/
def splitOnChar (d : Char) : List Char → List (List Char)
  | [] => [[]]
  | c :: rest =>
      if c = d then [] :: splitOnChar d rest
      else
        match splitOnChar d rest with
        | s :: ss => (c :: s) :: ss
        | [] => [[c]]

/-- A single or double quote character, the class `["']` of the cell
clean-up regex. -/
def isQuote (c : Char) : Bool := c = '"' || c = '\''

/-- JavaScript `cell.replace(/^["']|["']$/g, '')`: the global alternation
removes one leading quote character if present and, independently, one
trailing quote character if present (the two need not match; a single
quote character alone is consumed by the leading alternative). -/
def stripQuotes (l : List Char) : List Char :=
  let l1 :=
    match l with
    | c :: rest => if isQuote c then rest else c :: rest
    | [] => []
  match l1.getLast? with
  | some c => if isQuote c then l1.dropLast else l1
  | none => []

/-- ASCII decimal digit, the only digits of the ECMAScript
StrDecimalLiteral grammar. -/
def isDigit (c : Char) : Bool := '0' ≤ c && c ≤ '9'

def digitVal (c : Char) : Nat := c.toNat - '0'.toNat

def digitsToNat (ds : List Char) : Nat :=
  ds.foldl (fun a c => 10 * a + digitVal c) 0

/-- The optional ExponentPart at the head of `rest` (`e`/`E`, optional
sign, one or more digits).  Longest-prefix semantics: a malformed
exponent contributes nothing (exponent 0) because `parseFloat` keeps
only the longest valid literal prefix. -/
def parseExponent (rest : List Char) : Int :=
  match rest with
  | c :: r1 =>
      if c = 'e' || c = 'E' then
        let sr : Bool × List Char :=
          match r1 with
          | '+' :: t => (false, t)
          | '-' :: t => (true, t)
          | _ => (false, r1)
        let ds := sr.2.takeWhile isDigit
        if ds = [] then 0
        else if sr.1 then -(digitsToNat ds : Int) else (digitsToNat ds : Int)
      else 0
  | [] => 0

/-- Mathematical value of the longest StrUnsignedDecimalLiteral (without
the Infinity production) prefix of `l`: digits, optional fraction,
optional exponent; `none` when no prefix is a valid literal. -/
def parseDecimalLiteral (l : List Char) : Option ℚ :=
  let ints := l.takeWhile isDigit
  let r1 := l.dropWhile isDigit
  if ints = [] then
    match r1 with
    | '.' :: r2 =>
        let fr := r2.takeWhile isDigit
        if fr = [] then none
        else some ((digitsToNat fr : ℚ) / (10 : ℚ) ^ fr.length *
                   (10 : ℚ) ^ parseExponent (r2.dropWhile isDigit))
    | _ => none
  else
    match r1 with
    | '.' :: r2 =>
        let fr := r2.takeWhile isDigit
        some (((digitsToNat ints : ℚ) + (digitsToNat fr : ℚ) / (10 : ℚ) ^ fr.length) *
              (10 : ℚ) ^ parseExponent (r2.dropWhile isDigit))
    | _ => some ((digitsToNat ints : ℚ) * (10 : ℚ) ^ parseExponent r1)

/-- A non-NaN JavaScript number as `parseFloat` can produce it: an exact
finite value or a signed infinity. -/
inductive JSNum where
  | fin (q : ℚ)
  | inf (pos : Bool)
deriving DecidableEq, Repr

/-- ECMAScript `parseFloat`: skip leading whitespace, read an optional
sign, accept `Infinity`, otherwise the longest decimal-literal prefix;
`none` models NaN. -/
def parseFloat (s : List Char) : Option JSNum :=
  let t := s.dropWhile jsIsWhitespace
  let sr : Bool × List Char :=
    match t with
    | '-' :: t2 => (true, t2)
    | '+' :: t2 => (false, t2)
    | _ => (false, t)
  if sr.2.take 8 = "Infinity".toList then some (.inf !sr.1)
  else
    match parseDecimalLiteral sr.2 with
    | some q => some (.fin (if sr.1 then -q else q))
    | none => none

/-- A JavaScript object value stored in a `ChartDataPoint`
(`string | number` in `types.ts`). -/
inductive JSValue where
  | str (s : List Char)
  | num (n : JSNum)
deriving DecidableEq, Repr

/-- JavaScript property assignment `o[k] = v` on an object modelled as an
insertion-ordered association list: overwrite in place when the key is
present, append otherwise. -/
def objSet (o : List (List Char × JSValue)) (k : List Char) (v : JSValue) :
    List (List Char × JSValue) :=
  if o.any (fun p => p.1 = k) then
    o.map (fun p => if p.1 = k then (k, v) else p)
  else o ++ [(k, v)]

/-! ## The parsing engine (`parseRawInputToData`) -/

/-- The message of the single error the engine raises. -/
def errInsufficient : List Char :=
  "Insufficient data. Please provide a header row and at least one data row.".toList

/-- `input.trim().split(/\r?\n/).filter(line => line.trim() !== '')`. -/
def rawLines (input : List Char) : List (List Char) :=
  (splitLines (jsTrim input)).filter (fun line => jsTrim line ≠ [])

/-- The candidate delimiters, in source iteration order. -/
def delimiterCandidates : List Char := [',', '\t', ';']

/-- The delimiter-selection loop: starting from `(',', 0)`, a candidate
replaces the current choice only when its occurrence count in the header
line (`headerLine.split(d).length - 1`) is strictly greater. -/
def detectDelimiter (headerLine : List Char) : Char :=
  (delimiterCandidates.foldl
    (fun acc d =>
      let count := (splitOnChar d headerLine).length - 1
      if count > acc.2 then (d, count) else acc)
    (',', 0)).1

/-- `line.split(delimiter).map(cell => cell.trim().replace(/^["']|["']$/g, ''))`. -/
def parseLine (delimiter : Char) (line : List Char) : List (List Char) :=
  (splitOnChar delimiter line).map (fun cell => stripQuotes (jsTrim cell))

def headerLineOf (input : List Char) : List Char :=
  (rawLines input).getD 0 []

def delimOf (input : List Char) : Char :=
  detectDelimiter (headerLineOf input)

def headersOf (input : List Char) : List (List Char) :=
  parseLine (delimOf input) (headerLineOf input)

def dataRowsOf (input : List Char) : List (List Char) :=
  (rawLines input).drop 1

/-- `Math.min(dataRows.length, 5)`. -/
def checkLimitOf (input : List Char) : Nat :=
  min (dataRowsOf input).length 5

/-- The data lines examined by the numeric-column sampler. -/
def sampleRowsOf (input : List Char) : List (List Char) :=
  (dataRowsOf input).take (checkLimitOf input)

/-- The inner sampling loop for one column: walk the sampled lines with
the `hasData` flag, breaking at the first cell that fails `parseFloat`;
returns `(isNumeric, hasData)`. -/
def colScan (delimiter : Char) (colIdx : Nat) :
    List (List Char) → Bool → Bool × Bool
  | [], hasData => (true, hasData)
  | line :: rest, hasData =>
      let row := parseLine delimiter line
      if colIdx < row.length then
        if (parseFloat (row.getD colIdx [])).isNone then (false, true)
        else colScan delimiter colIdx rest true
      else colScan delimiter colIdx rest hasData

/-- `isNumeric && hasData` for one candidate column over the sample. -/
def isNumericCol (delimiter : Char) (sample : List (List Char)) (colIdx : Nat) : Bool :=
  let s := colScan delimiter colIdx sample false
  s.1 && s.2

/-- The columns `1 ≤ colIdx < headers.length` that pass the check, in
loop (ascending) order. -/
def numericColsOf (input : List Char) : List Nat :=
  ((List.range (headersOf input).length).drop 1).filter
    (isNumericCol (delimOf input) (sampleRowsOf input))

/-- `numericColumnIndices.length > 0 ? numericColumnIndices
    : headers.map((_, i) => i).slice(1)`. -/
def seriesIndicesOf (input : List Char) : List Nat :=
  if numericColsOf input ≠ [] then numericColsOf input
  else (List.range (headersOf input).length).drop 1

def seriesKeysOf (input : List Char) : List (List Char) :=
  (seriesIndicesOf input).map (fun i => (headersOf input).getD i [])

/-- `isNaN(parseFloat(row[colIdx])) ? 0 : parseFloat(row[colIdx])`.
A missing cell (`row[colIdx]` undefined in JavaScript, coerced to the
string `"undefined"` by `parseFloat`) and the empty string both fail to
parse, so the out-of-range default `[]` is observationally faithful. -/
def seriesCellValue (row : List (List Char)) (colIdx : Nat) : JSNum :=
  (parseFloat (row.getD colIdx [])).getD (.fin 0)

/-- One materialized `ChartDataPoint`: the object `{ label }` followed by
one property assignment per series column. -/
def mkPoint (headers : List (List Char)) (seriesIndices : List Nat)
    (delimiter : Char) (line : List Char) : List (List Char × JSValue) :=
  let row := parseLine delimiter line
  seriesIndices.foldl
    (fun point colIdx =>
      objSet point (headers.getD colIdx []) (.num (seriesCellValue row colIdx)))
    [("label".toList, .str (row.getD 0 []))]

/-- The `dataRows.forEach` loop: a line whose split yields no cells is
skipped (`if (row.length === 0) return`), every other line emits one
point. -/
def dataOf (input : List Char) : List (List (List Char × JSValue)) :=
  ((dataRowsOf input).filter
      (fun line => (parseLine (delimOf input) line).length ≠ 0)).map
    (mkPoint (headersOf input) (seriesIndicesOf input) (delimOf input))

/-- The partial configuration the engine suggests
(`Partial<ChartConfig>` in `types.ts`). -/
structure SuggestedConfig where
  title : List Char
  xAxisLabel : List Char
  yAxisLabel : List Char
  xAxisLabelPosition : List Char
  yAxisLabelPosition : List Char
deriving DecidableEq, Repr

/-- The `suggestedConfig` object literal; `headers[0] || "Category"`
falls back exactly when `headers[0]` is falsy, i.e. the empty string
(index 0 always exists after a split). -/
def suggestedConfigOf (input : List Char) : SuggestedConfig where
  title := "Chart Title".toList
  xAxisLabel :=
    if (headersOf input).getD 0 [] = [] then "Category".toList
    else (headersOf input).getD 0 []
  yAxisLabel :=
    if (seriesKeysOf input).length = 1 then (seriesKeysOf input).getD 0 []
    else "Value".toList
  xAxisLabelPosition := "rightEnd".toList
  yAxisLabelPosition := "aboveArrow".toList

/-- The structured result of a successful parse
(`ParsedResponse` in `types.ts`). -/
structure ParseResult where
  data : List (List (List Char × JSValue))
  seriesKeys : List (List Char)
  suggestedConfig : SuggestedConfig
deriving DecidableEq, Repr

/-- `parseRawInputToData`: reject inputs with fewer than two non-empty
lines, otherwise detect the delimiter, classify columns and materialize
the points. -/
def parseRawInputToData (input : List Char) : Except (List Char) ParseResult :=
  if (rawLines input).length < 2 then .error errInsufficient
  else .ok
    { data := dataOf input
      seriesKeys := seriesKeysOf input
      suggestedConfig := suggestedConfigOf input }

/-! ## The caller (`App` component state and `handleParse`) -/

/-- `ParsingStatus` from `types.ts`. -/
inductive ParsingStatus where
  | IDLE
  | PARSING
  | SUCCESS
  | ERROR
deriving DecidableEq, Repr

/-- `ChartSeries` from `types.ts`. -/
structure ChartSeries where
  dataKey : List Char
  color : List Char
  name : List Char
deriving DecidableEq, Repr

/-- `ChartConfig` from `types.ts`; JavaScript numbers are modelled as
exact rationals. -/
structure ChartConfig where
  title : List Char
  xAxisLabel : List Char
  yAxisLabel : List Char
  grid : Bool
  dots : Bool
  strokeWidth : ℚ
  smooth : Bool
  legend : Bool
  axisColor : List Char
  xAxisArrowStart : Bool
  xAxisArrowEnd : Bool
  yAxisArrowStart : Bool
  yAxisArrowEnd : Bool
  xAxisStartZero : Bool
  yAxisStartZero : Bool
  xAxisMin : List Char
  xAxisMax : List Char
  yAxisMin : List Char
  yAxisMax : List Char
  xAxisTickFontSize : ℚ
  yAxisTickFontSize : ℚ
  xAxisTickInterval : ℚ
  yAxisTickCount : ℚ
  yAxisTickInterval : ℚ
  xAxisTickType : List Char
  yAxisTickType : List Char
  xAxisTickSize : ℚ
  yAxisTickSize : ℚ
  xAxisTickLabelDistance : ℚ
  yAxisTickLabelDistance : ℚ
  showLabels : Bool
  labelFontSize : ℚ
  labelDistance : ℚ
  showXAxisLabel : Bool
  showYAxisLabel : Bool
  xAxisLabelPosition : List Char
  yAxisLabelPosition : List Char
  xAxisLabelFontSize : ℚ
  yAxisLabelFontSize : ℚ
  xAxisLabelOffsetX : ℚ
  xAxisLabelOffsetY : ℚ
  yAxisLabelOffsetX : ℚ
  yAxisLabelOffsetY : ℚ
  fontFamily : List Char
deriving DecidableEq, Repr

/-- `DEFAULT_CONFIG` from the application file. -/
def DEFAULT_CONFIG : ChartConfig where
  title := "Chart Title".toList
  xAxisLabel := "Category".toList
  yAxisLabel := "Value".toList
  grid := true
  dots := true
  strokeWidth := 2
  smooth := true
  legend := true
  axisColor := "#64748b".toList
  xAxisArrowStart := false
  xAxisArrowEnd := false
  yAxisArrowStart := false
  yAxisArrowEnd := true
  xAxisStartZero := false
  yAxisStartZero := true
  xAxisMin := "auto".toList
  xAxisMax := "auto".toList
  yAxisMin := "auto".toList
  yAxisMax := "auto".toList
  xAxisTickFontSize := 12
  yAxisTickFontSize := 12
  xAxisTickInterval := 0
  yAxisTickCount := 5
  yAxisTickInterval := 0
  xAxisTickType := "outside".toList
  yAxisTickType := "outside".toList
  xAxisTickSize := 6
  yAxisTickSize := 6
  xAxisTickLabelDistance := 0
  yAxisTickLabelDistance := 0
  showLabels := false
  labelFontSize := 11
  labelDistance := 5
  showXAxisLabel := true
  showYAxisLabel := true
  xAxisLabelPosition := "rightEnd".toList
  yAxisLabelPosition := "aboveArrow".toList
  xAxisLabelFontSize := 12
  yAxisLabelFontSize := 12
  xAxisLabelOffsetX := 0
  xAxisLabelOffsetY := 0
  yAxisLabelOffsetX := 0
  yAxisLabelOffsetY := 0
  fontFamily := "\"Source Han Sans SC\", \"Noto Sans SC\", \"Microsoft YaHei\", sans-serif".toList

/-- `setChartConfig(prev => ({ ...prev, ...result.suggestedConfig }))`:
the five suggested fields override, everything else is kept. -/
def mergeConfig (prev : ChartConfig) (sc : SuggestedConfig) : ChartConfig :=
  { prev with
      title := sc.title
      xAxisLabel := sc.xAxisLabel
      yAxisLabel := sc.yAxisLabel
      xAxisLabelPosition := sc.xAxisLabelPosition
      yAxisLabelPosition := sc.yAxisLabelPosition }

/-- The fixed series color palette. -/
def seriesColors : List (List Char) :=
  ["#2563eb".toList, "#db2777".toList, "#16a34a".toList,
   "#d97706".toList, "#9333ea".toList, "#0891b2".toList]

/-- `key.charAt(0).toUpperCase() + key.slice(1)` (ASCII case mapping). -/
def capitalizeKey (key : List Char) : List Char :=
  match key with
  | [] => []
  | c :: rest => c.toUpper :: rest

/-- The `result.seriesKeys.map((key, index) => ...)` building the series
list. -/
def mkSeries (seriesKeys : List (List Char)) : List ChartSeries :=
  seriesKeys.mapIdx (fun index key =>
    { dataKey := key
      name := capitalizeKey key
      color := seriesColors.getD (index % seriesColors.length) [] })

/-- The component state held by the `App` function
(`inputData`, `parsingStatus`, `chartData`, `chartConfig`, `series`). -/
structure AppState where
  inputData : List Char
  parsingStatus : ParsingStatus
  chartData : List (List (List Char × JSValue))
  chartConfig : ChartConfig
  series : List ChartSeries
deriving DecidableEq, Repr

/-- `handleParse`: on success commit data, merged config, series and the
SUCCESS status; on any exception only the status changes, to ERROR. -/
def handleParse (s : AppState) : AppState :=
  match parseRawInputToData s.inputData with
  | .ok result =>
      { s with
          chartData := result.data
          chartConfig := mergeConfig s.chartConfig result.suggestedConfig
          series := mkSeries result.seriesKeys
          parsingStatus := .SUCCESS }
  | .error _ => { s with parsingStatus := .ERROR }

/-- `DEFAULT_DATA` from the application file. -/
def DEFAULT_DATA : List Char :=
  ("Month, Sales, Expenses\nJan, 4000, 2400\nFeb, 3000, 1398\nMar, 2000, 9800\n" ++
   "Apr, 2780, 3908\nMay, 1890, 4800\nJun, 2390, 3800").toList

/-! ## Spec-side definitions (for refinement comparisons) -/

/-- The delimiter as the spec describes it: the candidate among comma,
tab, semicolon with the highest occurrence count in the header line,
the earliest candidate in the order comma, tab, semicolon winning ties. -/
def specDelimiter (headerLine : List Char) : Char :=
  if headerLine.count '\t' ≤ headerLine.count ',' ∧
     headerLine.count ';' ≤ headerLine.count ',' then ','
  else if headerLine.count ';' ≤ headerLine.count '\t' then '\t'
  else ';'

/-- The cell clean-up as amended: trim first, then drop one leading
character when it is a quote and, independently, one trailing character
when it is a quote — no matching requirement between the two ends. -/
def stripCellAmended (cell : List Char) : List Char :=
  let t := jsTrim cell
  let afterLead :=
    match t.head? with
    | some c => if isQuote c then t.drop 1 else t
    | none => t
  match afterLead.getLast? with
  | some c => if isQuote c then afterLead.dropLast else afterLead
  | none => afterLead

/-! ## Concrete sample inputs and states -/

/-- The numeric-column example of the design document. -/
def sampleCSV : List Char :=
  "Month, Sales, Notes\nJan,4000,good\nFeb,3000,ok".toList

/-- An all-text table: no column passes the numeric check. -/
def allTextCSV : List Char :=
  "Name, City\nBob, Paris\nAmy, Rome".toList

/-- An input with a single non-empty line, rejected by the engine. -/
def badInput : List Char := "OnlyOneLine".toList

/-- A concrete application state holding a rejected input. -/
def sampleErrState : AppState where
  inputData := badInput
  parsingStatus := .IDLE
  chartData := []
  chartConfig := DEFAULT_CONFIG
  series := []

/-- A concrete application state holding an accepted input. -/
def sampleOkState : AppState where
  inputData := sampleCSV
  parsingStatus := .IDLE
  chartData := []
  chartConfig := DEFAULT_CONFIG
  series := []

/-! ## Helper lemmas -/

theorem splitOnChar_ne_nil (d : Char) (l : List Char) : splitOnChar d l ≠ [] := by
  induction l with
  | nil => simp [splitOnChar]
  | cons c rest ih =>
      rw [splitOnChar]
      split
      · simp
      · cases h : splitOnChar d rest with
        | nil => simp
        | cons s ss => simp

theorem splitOnChar_length (d : Char) (l : List Char) :
    (splitOnChar d l).length = l.count d + 1 := by
  induction l with
  | nil => simp [splitOnChar, List.count_nil]
  | cons c rest ih =>
      rw [splitOnChar]
      by_cases h : c = d
      · simp only [if_pos h, List.length_cons, ih, List.count_cons]
        simp [h]
      · rw [if_neg h]
        cases hs : splitOnChar d rest with
        | nil => exact absurd hs (splitOnChar_ne_nil d rest)
        | cons s ss =>
            have := ih
            rw [hs] at this
            simp only [List.length_cons] at this ⊢
            simp [List.count_cons, this, h]

theorem parseLine_length (delimiter : Char) (line : List Char) :
    (parseLine delimiter line).length = line.count delimiter + 1 := by
  rw [parseLine, List.length_map, splitOnChar_length]

theorem parseLine_ne_nil (delimiter : Char) (line : List Char) :
    1 ≤ (parseLine delimiter line).length := by
  rw [parseLine_length]; omega

/-- The detection loop computes the spec-side argmax. -/
theorem detectDelimiter_eq_spec (headerLine : List Char) :
    detectDelimiter headerLine = specDelimiter headerLine := by
  have e1 := splitOnChar_length ',' headerLine
  have e2 := splitOnChar_length '\t' headerLine
  have e3 := splitOnChar_length ';' headerLine
  simp only [detectDelimiter, delimiterCandidates, List.foldl, specDelimiter,
    e1, e2, e3, Nat.add_sub_cancel]
  split_ifs <;> first | rfl | omega

/-! ## Claim theorems -/

/-- C3: the parse raises an error exactly when, after trimming, splitting
on line breaks and discarding blank lines, fewer than two non-empty lines
remain; on every other input it returns a normal result (unparseable
cells, short rows and ragged rows included). -/
theorem parse_error_iff_insufficient_lines (input : List Char) :
    (∃ e, parseRawInputToData input = .error e) ↔ (rawLines input).length < 2 := by
  rw [parseRawInputToData]
  split
  · next h => exact ⟨fun _ => h, fun _ => ⟨errInsufficient, rfl⟩⟩
  · next h =>
      constructor
      · rintro ⟨e, he⟩
        simp at he
      · intro hlt
        exact absurd hlt h

/-- C4 counterexample: a cell whose leading and trailing quote characters
differ does NOT keep its quote characters — the clean-up regex strips
both ends independently, so `"Jan'` becomes `Jan`. -/
theorem quote_strip_counterexample :
    parseLine ',' "\"Jan'".toList = ["Jan".toList] ∧
    "Jan".toList ≠ "\"Jan'".toList := by
  constructor
  · rfl
  · decide

/-- C4 (amended): each cell produced by splitting on the delimiter is
trimmed of surrounding whitespace, then loses one leading quote character
when present and one trailing quote character when present, the two ends
being handled independently with no requirement that the quotes match. -/
theorem quote_strip_amended (delimiter : Char) (line : List Char) :
    parseLine delimiter line =
      (splitOnChar delimiter line).map stripCellAmended := by
  rw [parseLine]
  apply List.map_congr_left
  intro cell _
  show stripQuotes (jsTrim cell) = stripCellAmended cell
  unfold stripCellAmended
  generalize jsTrim cell = t
  cases t with
  | nil => rfl
  | cons c rest =>
      by_cases hq : isQuote c = true
      · cases hl : rest.getLast? with
        | none =>
            have hr : rest = [] := List.getLast?_eq_none_iff.mp hl
            subst hr
            simp [stripQuotes, hq]
        | some c2 => simp [stripQuotes, hq, hl]
      · cases hl : (c :: rest).getLast? with
        | none => simp at hl
        | some c2 => simp [stripQuotes, hq, hl]

/-- C7: when the parse raises, the caller moves to the ERROR status and
leaves chart data, series and configuration exactly as they were. -/
theorem error_leaves_state_untouched (s : AppState) (e : List Char)
    (herr : parseRawInputToData s.inputData = .error e) :
    handleParse s = { s with parsingStatus := .ERROR } ∧
    (handleParse s).chartData = s.chartData ∧
    (handleParse s).series = s.series ∧
    (handleParse s).chartConfig = s.chartConfig ∧
    (handleParse s).parsingStatus = .ERROR := by
  have h : handleParse s = { s with parsingStatus := .ERROR } := by
    rw [handleParse, herr]
  exact ⟨h, by rw [h], by rw [h], by rw [h], by rw [h]⟩

/-- C7 witness: a concrete one-line input fails and changes only the
status. -/
theorem error_leaves_state_untouched_witness :
    handleParse sampleErrState = { sampleErrState with parsingStatus := .ERROR } ∧
    (handleParse sampleErrState).chartData = sampleErrState.chartData ∧
    (handleParse sampleErrState).series = sampleErrState.series ∧
    (handleParse sampleErrState).chartConfig = sampleErrState.chartConfig ∧
    (handleParse sampleErrState).parsingStatus = .ERROR :=
  error_leaves_state_untouched sampleErrState errInsufficient rfl

/-- C9: the parse result depends only on the input text (two states with
the same text parse identically), and a second run of the caller on the
committed state changes nothing. -/
theorem parse_pure_and_idempotent (s1 s2 : AppState)
    (h : s1.inputData = s2.inputData) :
    parseRawInputToData s1.inputData = parseRawInputToData s2.inputData ∧
    handleParse (handleParse s1) = handleParse s1 := by
  refine ⟨by rw [h], ?_⟩
  cases hp : parseRawInputToData s1.inputData with
  | ok result =>
      simp only [handleParse, hp]
      simp [mergeConfig]
  | error e =>
      simp only [handleParse, hp]

/-- C9 witness at a concrete state. -/
theorem parse_pure_and_idempotent_witness :
    parseRawInputToData sampleOkState.inputData =
      parseRawInputToData sampleOkState.inputData ∧
    handleParse (handleParse sampleOkState) = handleParse sampleOkState :=
  parse_pure_and_idempotent sampleOkState sampleOkState rfl

theorem parse_ok_lines (input : List Char)
    (hok : (parseRawInputToData input).isOk = true) :
    ¬ (rawLines input).length < 2 := by
  intro hcon
  rw [parseRawInputToData, if_pos hcon] at hok
  simp [Except.isOk, Except.toBool] at hok

theorem parse_ok_elim (input : List Char)
    (hok : (parseRawInputToData input).isOk = true) :
    parseRawInputToData input =
      .ok ⟨dataOf input, seriesKeysOf input, suggestedConfigOf input⟩ := by
  rw [parseRawInputToData, if_neg (parse_ok_lines input hok)]

/-- C2: on every input with at least two non-empty lines the engine picks
the candidate among comma, tab, semicolon with the highest occurrence
count in the header line, ties resolving to the earliest candidate and an
all-zero count defaulting to comma, and uses that single delimiter to
split the header line and every data line. -/
theorem delimiter_selection (input : List Char)
    (h : 2 ≤ (rawLines input).length) :
    delimOf input = specDelimiter (headerLineOf input) ∧
    ((headerLineOf input).count ',' = 0 ∧ (headerLineOf input).count '\t' = 0 ∧
      (headerLineOf input).count ';' = 0 → delimOf input = ',') ∧
    headersOf input = parseLine (delimOf input) (headerLineOf input) ∧
    dataOf input = ((dataRowsOf input).filter
      (fun line => (parseLine (delimOf input) line).length ≠ 0)).map
      (mkPoint (headersOf input) (seriesIndicesOf input) (delimOf input)) := by
  refine ⟨detectDelimiter_eq_spec _, ?_, rfl, rfl⟩
  rintro ⟨h1, h2, h3⟩
  show detectDelimiter (headerLineOf input) = ','
  rw [detectDelimiter_eq_spec, specDelimiter, h1, h2, h3]
  simp

/-- C2 witness: the example header `Month, Sales, Notes` selects the
comma. -/
theorem delimiter_selection_witness :
    2 ≤ (rawLines sampleCSV).length ∧
    delimOf sampleCSV = specDelimiter (headerLineOf sampleCSV) :=
  ⟨by decide, (delimiter_selection sampleCSV (by decide)).1⟩

/-- C6: the number of emitted DataPoints equals the number of non-empty
data lines whose delimiter split yields at least one cell — and since a
split always yields at least one cell, no line is ever skipped and the
count equals the number of data lines. -/
theorem datapoint_count (input : List Char)
    (hok : (parseRawInputToData input).isOk = true) :
    parseRawInputToData input =
      .ok ⟨dataOf input, seriesKeysOf input, suggestedConfigOf input⟩ ∧
    (dataOf input).length = ((dataRowsOf input).filter
      (fun line => (parseLine (delimOf input) line).length ≠ 0)).length ∧
    (∀ line ∈ dataRowsOf input, 1 ≤ (parseLine (delimOf input) line).length) ∧
    (dataOf input).length = (dataRowsOf input).length := by
  have hfull : (dataRowsOf input).filter
      (fun line => (parseLine (delimOf input) line).length ≠ 0) = dataRowsOf input := by
    rw [List.filter_eq_self]
    intro line _
    have := parseLine_ne_nil (delimOf input) line
    simp only [ne_eq, decide_eq_true_eq]
    omega
  refine ⟨parse_ok_elim input hok, ?_, ?_, ?_⟩
  · rw [dataOf, List.length_map]
  · intro line _
    exact parseLine_ne_nil _ _
  · rw [dataOf, List.length_map, hfull]

/-- C6 witness: the two data rows of the example both yield one point. -/
theorem datapoint_count_witness :
    (parseRawInputToData sampleCSV).isOk = true ∧
    (dataOf sampleCSV).length = (dataRowsOf sampleCSV).length :=
  ⟨by decide, (datapoint_count sampleCSV (by decide)).2.2.2⟩

/-- C8: the suggested configuration fixes the title to the default
placeholder, takes the x-axis label from `headers[0]` (placeholder when
that header is empty/absent), and the y-axis label from the sole series
key when there is exactly one series, the generic placeholder otherwise. -/
theorem suggested_config_fields (input : List Char)
    (hok : (parseRawInputToData input).isOk = true) :
    (∀ r, parseRawInputToData input = .ok r →
      r.suggestedConfig = suggestedConfigOf input) ∧
    (suggestedConfigOf input).title = "Chart Title".toList ∧
    (suggestedConfigOf input).xAxisLabel =
      (if (headersOf input).getD 0 [] = [] then "Category".toList
       else (headersOf input).getD 0 []) ∧
    ((seriesKeysOf input).length = 1 →
      (suggestedConfigOf input).yAxisLabel = (seriesKeysOf input).getD 0 []) ∧
    ((seriesKeysOf input).length ≠ 1 →
      (suggestedConfigOf input).yAxisLabel = "Value".toList) := by
  refine ⟨?_, rfl, rfl, ?_, ?_⟩
  · intro r hr
    rw [parse_ok_elim input hok] at hr
    cases hr
    rfl
  · intro h1
    simp [suggestedConfigOf, h1]
  · intro h1
    simp [suggestedConfigOf, h1]

/-- C8 witness: the example has the sole series `Sales`, so the y-axis
label is `Sales` and the x-axis label is `Month`. -/
theorem suggested_config_fields_witness :
    (parseRawInputToData sampleCSV).isOk = true ∧
    (suggestedConfigOf sampleCSV).xAxisLabel =
      (if (headersOf sampleCSV).getD 0 [] = [] then "Category".toList
       else (headersOf sampleCSV).getD 0 []) :=
  ⟨by decide, (suggested_config_fields sampleCSV (by decide)).2.2.1⟩

/-- The sampling loop, break included, computes: `isNumeric` holds when
no examined line has a cell at the column that fails to parse, and
`hasData` when the flag was already set or some examined line has a cell
at the column. -/
theorem colScan_eq (delimiter : Char) (colIdx : Nat) (rows : List (List Char))
    (hd : Bool) :
    colScan delimiter colIdx rows hd =
      (rows.all fun line =>
          !(decide (colIdx < (parseLine delimiter line).length) &&
            (parseFloat ((parseLine delimiter line).getD colIdx [])).isNone),
       hd || rows.any fun line =>
          decide (colIdx < (parseLine delimiter line).length)) := by
  induction rows generalizing hd with
  | nil => simp [colScan]
  | cons line rest ih =>
      simp only [colScan, List.all_cons, List.any_cons]
      by_cases hc : colIdx < (parseLine delimiter line).length
      · rw [if_pos hc, decide_eq_true hc]
        by_cases hn :
            (parseFloat ((parseLine delimiter line).getD colIdx [])).isNone = true
        · rw [if_pos hn, hn]
          simp only [Bool.and_self, Bool.not_true, Bool.false_and, Bool.true_or,
            Bool.or_true]
        · rw [if_neg hn, ih true]
          have hn2 : (parseFloat ((parseLine delimiter line).getD colIdx [])).isNone
              = false := by rwa [Bool.not_eq_true] at hn
          rw [hn2]
          simp only [Bool.and_false, Bool.not_false, Bool.true_and, Bool.true_or,
            Bool.or_true]
      · rw [if_neg hc, ih hd, decide_eq_false hc]
        simp only [Bool.false_and, Bool.not_false, Bool.true_and, Bool.false_or]

theorem isNumericCol_iff (delimiter : Char) (sample : List (List Char))
    (colIdx : Nat) :
    isNumericCol delimiter sample colIdx = true ↔
    ((∀ line ∈ sample, colIdx < (parseLine delimiter line).length →
        (parseFloat ((parseLine delimiter line).getD colIdx [])).isSome = true) ∧
      ∃ line ∈ sample, colIdx < (parseLine delimiter line).length) := by
  simp only [isNumericCol, colScan_eq, Bool.and_eq_true, List.all_eq_true,
    List.any_eq_true, Bool.false_or, Bool.not_eq_true', Bool.and_eq_false_iff,
    decide_eq_false_iff_not, decide_eq_true_eq, Option.isNone_eq_false_iff]
  constructor
  · rintro ⟨h1, h2⟩
    refine ⟨fun line hl hcell => ?_, h2⟩
    rcases h1 line hl with hno | hsome
    · exact absurd hcell hno
    · simpa using hsome
  · rintro ⟨h1, h2⟩
    refine ⟨fun line hl => ?_, h2⟩
    by_cases hcell : colIdx < (parseLine delimiter line).length
    · exact Or.inr (by simpa using h1 line hl hcell)
    · exact Or.inl hcell

theorem range_drop_one (n : Nat) :
    (List.range n).drop 1 = List.range' 1 (n - 1) := by
  cases n with
  | zero => rfl
  | succ m =>
      rw [List.range_eq_range']
      have happ : List.range' 0 1 ++ List.range' 1 m = List.range' 0 (m + 1) := by
        simpa using List.range'_append 0 1 m 1
      rw [← happ]
      simp [List.range'_one]

theorem mem_numericColsOf (input : List Char) (i : Nat) :
    i ∈ numericColsOf input ↔
      (1 ≤ i ∧ i < (headersOf input).length ∧
        isNumericCol (delimOf input) (sampleRowsOf input) i = true) := by
  have hlen : 1 ≤ (headersOf input).length := parseLine_ne_nil _ _
  rw [numericColsOf, List.mem_filter, range_drop_one, List.mem_range'_1]
  constructor
  · rintro ⟨⟨h1, h2⟩, h3⟩
    exact ⟨h1, by omega, h3⟩
  · rintro ⟨h1, h2, h3⟩
    exact ⟨⟨h1, by omega⟩, h3⟩

theorem numericColsOf_sorted (input : List Char) :
    List.Pairwise (· < ·) (numericColsOf input) := by
  have h1 : ((List.range (headersOf input).length).drop 1).Pairwise (· < ·) :=
    List.Pairwise.sublist (List.drop_sublist 1 _)
      (List.pairwise_lt_range _)
  exact List.Pairwise.sublist (List.filter_sublist _) h1

theorem seriesIndices_of_nonempty (input : List Char)
    (h : numericColsOf input ≠ []) :
    seriesIndicesOf input = numericColsOf input := by
  rw [seriesIndicesOf, if_pos h]

/-- C1: for an accepted input, a header column `1 ≤ i ≤ len(headers)-1`
is classified numeric exactly when, among the first `min(5, #data lines)`
data lines, every examined line with a cell at index `i` parses as a
float and at least one examined line has a cell at index `i`; when the
resulting set is non-empty it is the series index set, in ascending
column order. -/
theorem numeric_classification (input : List Char)
    (hok : (parseRawInputToData input).isOk = true)
    (i : Nat) (hi1 : 1 ≤ i) (hi2 : i ≤ (headersOf input).length - 1) :
    (i ∈ numericColsOf input ↔
      ((∀ line ∈ sampleRowsOf input,
          i < (parseLine (delimOf input) line).length →
          (parseFloat ((parseLine (delimOf input) line).getD i [])).isSome = true) ∧
        ∃ line ∈ sampleRowsOf input,
          i < (parseLine (delimOf input) line).length)) ∧
    (numericColsOf input ≠ [] →
      seriesIndicesOf input = numericColsOf input ∧
      List.Pairwise (· < ·) (seriesIndicesOf input)) := by
  have hlen : 1 ≤ (headersOf input).length := parseLine_ne_nil _ _
  constructor
  · rw [mem_numericColsOf, isNumericCol_iff]
    constructor
    · rintro ⟨_, _, h3⟩
      exact h3
    · intro hchar
      exact ⟨hi1, by omega, hchar⟩
  · intro hne
    rw [seriesIndices_of_nonempty input hne]
    exact ⟨rfl, numericColsOf_sorted input⟩

/-- C1 witness at the example table, column 1 (`Sales`). -/
theorem numeric_classification_witness :
    (parseRawInputToData sampleCSV).isOk = true ∧ 1 ≤ 1 ∧
    1 ≤ (headersOf sampleCSV).length - 1 ∧
    ((1 ∈ numericColsOf sampleCSV ↔
      ((∀ line ∈ sampleRowsOf sampleCSV,
          1 < (parseLine (delimOf sampleCSV) line).length →
          (parseFloat ((parseLine (delimOf sampleCSV) line).getD 1 [])).isSome = true) ∧
        ∃ line ∈ sampleRowsOf sampleCSV,
          1 < (parseLine (delimOf sampleCSV) line).length)) ∧
     (numericColsOf sampleCSV ≠ [] →
       seriesIndicesOf sampleCSV = numericColsOf sampleCSV ∧
       List.Pairwise (· < ·) (seriesIndicesOf sampleCSV))) :=
  ⟨by decide, by decide, by decide,
   numeric_classification sampleCSV (by decide) 1 (by decide) (by decide)⟩

theorem mem_objSet_self (o : List (List Char × JSValue)) (k : List Char)
    (v : JSValue) : (k, v) ∈ objSet o k v := by
  rw [objSet]
  split
  · next h =>
      rw [List.any_eq_true] at h
      obtain ⟨p, hp, hpk⟩ := h
      rw [decide_eq_true_eq] at hpk
      exact List.mem_map.mpr ⟨p, hp, by rw [if_pos hpk]⟩
  · exact List.mem_append.mpr (Or.inr (List.mem_singleton.mpr rfl))

theorem mem_objSet_of_ne (o : List (List Char × JSValue)) (k k2 : List Char)
    (v v2 : JSValue) (hne : k ≠ k2) (hmem : (k, v) ∈ o) :
    (k, v) ∈ objSet o k2 v2 := by
  rw [objSet]
  split
  · exact List.mem_map.mpr ⟨(k, v), hmem, by simp [hne]⟩
  · exact List.mem_append.mpr (Or.inl hmem)

theorem foldl_objSet_preserve (l : List (List Char × JSValue))
    (o : List (List Char × JSValue)) (k : List Char) (v : JSValue)
    (hmem : (k, v) ∈ o) (hk : k ∉ l.map Prod.fst) :
    (k, v) ∈ l.foldl (fun acc p => objSet acc p.1 p.2) o := by
  induction l generalizing o with
  | nil => exact hmem
  | cons p rest ih =>
      simp only [List.map_cons, List.mem_cons, not_or] at hk
      simp only [List.foldl_cons]
      exact ih (objSet o p.1 p.2) (mem_objSet_of_ne o k p.1 v p.2 hk.1 hmem) hk.2

theorem foldl_objSet_mem (l : List (List Char × JSValue))
    (o : List (List Char × JSValue)) (k : List Char)
    (hk : k ∈ l.map Prod.fst)
    (hv : ∀ p ∈ l, ∃ n, p.2 = JSValue.num n) :
    ∃ n, (k, JSValue.num n) ∈ l.foldl (fun acc p => objSet acc p.1 p.2) o := by
  induction l generalizing o with
  | nil => simp at hk
  | cons p rest ih =>
      simp only [List.foldl_cons]
      by_cases hk2 : k ∈ rest.map Prod.fst
      · exact ih (objSet o p.1 p.2) hk2 (fun q hq => hv q (List.mem_cons_of_mem _ hq))
      · have hkp : k = p.1 := by
          simp only [List.map_cons, List.mem_cons] at hk
          rcases hk with h | h
          · exact h
          · exact absurd h hk2
        obtain ⟨n, hn⟩ := hv p (List.mem_cons_self _ _)
        refine ⟨n, foldl_objSet_preserve rest _ k (JSValue.num n) ?_ hk2⟩
        subst hkp
        exact hn ▸ mem_objSet_self o p.1 p.2

/-- The point-building fold, re-expressed over the list of performed
property assignments. -/
theorem mkPoint_eq_foldl_map (headers : List (List Char))
    (seriesIndices : List Nat) (delimiter : Char) (line : List Char) :
    mkPoint headers seriesIndices delimiter line =
      (seriesIndices.map (fun colIdx =>
          (headers.getD colIdx [],
           JSValue.num (seriesCellValue (parseLine delimiter line) colIdx)))).foldl
        (fun acc p => objSet acc p.1 p.2)
        [("label".toList, .str ((parseLine delimiter line).getD 0 []))] := by
  rw [List.foldl_map]
  rfl

/-- C5: when no column passes the numeric check on an accepted input,
the series index set is exactly every column index from 1 to
`len(headers)-1` in ascending order, and each materialized point assigns,
for every series column whose cell does not parse as a float, the value 0
under that column's header key. -/
theorem fallback_series (input : List Char)
    (hok : (parseRawInputToData input).isOk = true)
    (hempty : numericColsOf input = []) :
    seriesIndicesOf input = (List.range (headersOf input).length).drop 1 ∧
    List.Pairwise (· < ·) (seriesIndicesOf input) ∧
    (∀ i, i ∈ seriesIndicesOf input ↔ 1 ≤ i ∧ i < (headersOf input).length) ∧
    (∀ line colIdx,
      parseFloat ((parseLine (delimOf input) line).getD colIdx []) = none →
      seriesCellValue (parseLine (delimOf input) line) colIdx = .fin 0) ∧
    (∀ line, mkPoint (headersOf input) (seriesIndicesOf input) (delimOf input) line =
      ((seriesIndicesOf input).map (fun colIdx =>
          ((headersOf input).getD colIdx [],
           JSValue.num (seriesCellValue (parseLine (delimOf input) line) colIdx)))).foldl
        (fun acc p => objSet acc p.1 p.2)
        [("label".toList, .str ((parseLine (delimOf input) line).getD 0 []))]) := by
  have hlen : 1 ≤ (headersOf input).length := parseLine_ne_nil _ _
  have hidx : seriesIndicesOf input = (List.range (headersOf input).length).drop 1 := by
    rw [seriesIndicesOf, if_neg]
    simp [hempty]
  refine ⟨hidx, ?_, ?_, ?_, ?_⟩
  · rw [hidx]
    exact List.Pairwise.sublist (List.drop_sublist 1 _) (List.pairwise_lt_range _)
  · intro i
    rw [hidx, range_drop_one, List.mem_range'_1]
    omega
  · intro line colIdx h
    rw [seriesCellValue, h]
    rfl
  · intro line
    exact mkPoint_eq_foldl_map _ _ _ _

/-- C5 witness: an all-text table falls back to every column except
column 0. -/
theorem fallback_series_witness :
    (parseRawInputToData allTextCSV).isOk = true ∧
    numericColsOf allTextCSV = [] ∧
    seriesIndicesOf allTextCSV = (List.range (headersOf allTextCSV).length).drop 1 :=
  ⟨by decide, by decide, (fallback_series allTextCSV (by decide) (by decide)).1⟩

/-- C10: every emitted DataPoint carries a numeric value under every
returned series key; a series column the row is too short to reach, or
whose cell does not parse as a float, contributes the value 0 rather
than a missing field. -/
theorem points_carry_all_series_keys (input : List Char)
    (hok : (parseRawInputToData input).isOk = true) :
    (∀ pt ∈ dataOf input, ∀ key ∈ seriesKeysOf input,
      ∃ n : JSNum, (key, JSValue.num n) ∈ pt) ∧
    (∀ row colIdx, row.length ≤ colIdx → seriesCellValue row colIdx = .fin 0) ∧
    (∀ row colIdx, parseFloat (row.getD colIdx []) = none →
      seriesCellValue row colIdx = .fin 0) ∧
    (∀ r, parseRawInputToData input = .ok r →
      r.data = dataOf input ∧ r.seriesKeys = seriesKeysOf input) := by
  refine ⟨?_, ?_, ?_, ?_⟩
  · intro pt hpt key hkey
    rw [dataOf] at hpt
    obtain ⟨line, _, rfl⟩ := List.mem_map.mp hpt
    rw [mkPoint_eq_foldl_map]
    apply foldl_objSet_mem
    · rw [List.map_map]
      exact hkey
    · intro p hp
      obtain ⟨colIdx, _, rfl⟩ := List.mem_map.mp hp
      exact ⟨_, rfl⟩
  · intro row colIdx h
    rw [seriesCellValue, List.getD_eq_default _ _ h]
    rfl
  · intro row colIdx h
    rw [seriesCellValue, h]
    rfl
  · intro r hr
    rw [parse_ok_elim input hok] at hr
    cases hr
    exact ⟨rfl, rfl⟩

/-- C10 witness: the first point of the example carries a numeric value
under the key `Sales`. -/
theorem points_carry_all_series_keys_witness :
    (parseRawInputToData sampleCSV).isOk = true ∧
    (∀ pt ∈ dataOf sampleCSV, ∀ key ∈ seriesKeysOf sampleCSV,
      ∃ n : JSNum, (key, JSValue.num n) ∈ pt) :=
  ⟨by decide, (points_carry_all_series_keys sampleCSV (by decide)).1⟩

end LineChart
